import Mathlib

/-!
# Verification of the pix3d-open-world streaming / instancing core

This file embeds the world-streaming and mass-instance-rendering subsystem of
the repository in Lean 4 and proves the testable properties stated in its
specification.

The repository snapshot contains the frame driver (`main_original_backup.ts`)
and the `PlayerController`; the streaming core itself (InstancePool /
GlobalBillboardSystem, ChunkStore, StreamingScheduler, SpatialIndex) is only
referenced from those files, so those components are modelled from the
specification, as indicated on each definition.
-/

set_option maxHeartbeats 1000000

namespace Pix3D

/-! ## InstancePool

Modelled from the spec: the `InstancePool` / `GlobalBillboardSystem` component
(spec sections 3 and 4.2) is not present in the repository snapshot; only its
callers are.  A single sprite category is modelled: a fixed-capacity slot
array, a free-list of available indices, a `usedCount`, and per-slot
generation counters that invalidate stale handles.  Distinct categories are
independent pools. -/

/-- Modelled from the spec: one record of a category's fixed-capacity buffer:
a generation counter (bumped when the slot is recycled), a used flag, and the
owning chunk (a chunk identifier) while the slot is live. -/
structure Slot where
  gen : Nat
  used : Bool
  owner : Option Nat
  deriving Repr, DecidableEq

/-- Modelled from the spec: `InstanceSlotHandle` identifies one instance
within a category's buffer: (slotIndex, generation counter). -/
structure InstanceSlotHandle where
  slotIndex : Nat
  gen : Nat
  deriving Repr, DecidableEq

/-- Modelled from the spec: failure taxonomy of the instance pool
(spec section 7). -/
inductive PoolError where
  | CapacityExhausted
  | StaleHandle
  deriving Repr, DecidableEq

/-- Modelled from the spec: the state of one `InstanceCategory` buffer:
fixed capacity, the slot records (as a total function on indices; only
indices below `capacity` are meaningful), the free-list of available
indices, and the live-slot count. -/
structure Pool where
  capacity : Nat
  slots : Nat → Slot
  freeList : List Nat
  usedCount : Nat

/-- Modelled from the spec: a freshly created category buffer of capacity `c`:
all slots unused at generation 0, every index on the free-list, no slot live. -/
def initPool (c : Nat) : Pool :=
  { capacity := c
    slots := fun _ => { gen := 0, used := false, owner := none }
    freeList := List.range c
    usedCount := 0 }

/-- Modelled from the spec: `allocate(category, initialTransform)` pops an
index from the category free-list, marks it used by the requesting chunk and
hands out a handle carrying the slot's current generation; when the free-list
is empty the capacity is exhausted and the call fails loudly with
`CapacityExhausted`. -/
def Pool.allocate (p : Pool) (owner : Nat) :
    Except PoolError (InstanceSlotHandle × Pool) :=
  match p.freeList with
  | [] => .error .CapacityExhausted
  | i :: rest =>
      let s := p.slots i
      .ok ({ slotIndex := i, gen := s.gen },
        { p with
            slots := fun j => if j = i then { s with used := true, owner := some owner } else p.slots j
            freeList := rest
            usedCount := p.usedCount + 1 })

/-- Modelled from the spec: `free(handle)` validates the handle: a handle is
stale when its index is out of range, its slot is not live (already freed or
recycled), or its generation counter does not match the slot's current
generation; a stale handle fails with `StaleHandle` and nothing is modified.
Otherwise the slot is returned to the free-list and its generation is
bumped. -/
def Pool.free (p : Pool) (h : InstanceSlotHandle) : Except PoolError Pool :=
  let s := p.slots h.slotIndex
  if h.slotIndex < p.capacity ∧ s.used = true ∧ s.gen = h.gen then
    .ok { p with
            slots := fun j => if j = h.slotIndex then { gen := s.gen + 1, used := false, owner := none } else p.slots j
            freeList := h.slotIndex :: p.freeList
            usedCount := p.usedCount - 1 }
  else .error .StaleHandle

/-- Modelled from the spec: one call against the pool: an allocation on
behalf of an owning chunk, or a free of a (possibly stale or forged)
handle. -/
inductive PoolOp where
  | alloc (owner : Nat)
  | free (h : InstanceSlotHandle)
  deriving Repr, DecidableEq

/-- Modelled from the spec: apply one call to the pool; a failed call
(`CapacityExhausted` or `StaleHandle`) leaves the pool unchanged, as the
caller only receives the error value. -/
def Pool.applyOp (p : Pool) (op : PoolOp) : Pool :=
  match op with
  | .alloc o =>
      match p.allocate o with
      | .ok x => x.2
      | .error _ => p
  | .free h =>
      match p.free h with
      | .ok p' => p'
      | .error _ => p

/-- Modelled from the spec: run an arbitrary sequence of allocate/free calls
against the pool. -/
def Pool.runOps (p : Pool) (ops : List PoolOp) : Pool :=
  ops.foldl Pool.applyOp p

/-- Modelled from the spec: the invariant of an `InstanceCategory` buffer
(spec section 3): `usedCount <= capacity` (in the strong form
`usedCount + |freeList| = capacity` with a duplicate-free free-list of
in-range indices), every index on the free-list is unused — indeed an
in-range slot is unused exactly when its index is on the free-list — and
every used slot records its unique owning chunk. -/
def Pool.Inv (p : Pool) : Prop :=
  p.usedCount + p.freeList.length = p.capacity ∧
  p.freeList.Nodup ∧
  (∀ i ∈ p.freeList, i < p.capacity) ∧
  (∀ i, i < p.capacity → ((p.slots i).used = false ↔ i ∈ p.freeList)) ∧
  (∀ i, i < p.capacity → (p.slots i).used = true → (p.slots i).owner ≠ none)

theorem initPool_inv (c : Nat) : (initPool c).Inv := by
  refine ⟨?_, ?_, ?_, ?_, ?_⟩
  · simp [initPool]
  · exact List.nodup_range c
  · intro i hi; simpa [initPool] using List.mem_range.mp (by simpa [initPool] using hi)
  · intro i hi
    simp only [initPool] at hi ⊢
    simp [List.mem_range, hi]
  · intro i _ h; simp [initPool] at h

theorem length_lt_of_nodup_missing (l : List Nat) (n i : Nat)
    (hnd : l.Nodup) (hbd : ∀ x ∈ l, x < n) (hi : i < n) (hmem : i ∉ l) :
    l.length < n := by
  have h1 : l.toFinset.card = l.length := List.toFinset_card_of_nodup hnd
  have h2 : l.toFinset ⊆ (Finset.range n).erase i := by
    intro x hx
    rw [List.mem_toFinset] at hx
    refine Finset.mem_erase.mpr ⟨?_, Finset.mem_range.mpr (hbd x hx)⟩
    rintro rfl; exact hmem hx
  have h3 := Finset.card_le_card h2
  rw [h1, Finset.card_erase_of_mem (Finset.mem_range.mpr hi), Finset.card_range] at h3
  omega

theorem Pool.runOps_nil (p : Pool) : p.runOps [] = p := rfl

theorem Pool.runOps_cons (p : Pool) (op : PoolOp) (ops : List PoolOp) :
    p.runOps (op :: ops) = (p.applyOp op).runOps ops := rfl

theorem Pool.allocate_err (p : Pool) (o : Nat) (hfl : p.freeList = []) :
    p.allocate o = .error .CapacityExhausted := by
  unfold Pool.allocate
  rw [hfl]

theorem Pool.allocate_ok_spec (p : Pool) (o i : Nat) (rest : List Nat)
    (hInv : p.Inv) (hfl : p.freeList = i :: rest) :
    ∃ h p', p.allocate o = .ok (h, p') ∧ h.slotIndex = i ∧ h.gen = (p.slots i).gen ∧
      p'.Inv ∧ p'.capacity = p.capacity ∧ p'.usedCount = p.usedCount + 1 ∧
      p'.freeList = rest ∧
      (∀ j, j ≠ i → p'.slots j = p.slots j) ∧
      p'.slots i = { gen := (p.slots i).gen, used := true, owner := some o } := by
  obtain ⟨cap, slots, fl, uc⟩ := p
  obtain ⟨hsum, hnd, hbd, hiff, hown⟩ := hInv
  simp only [] at hfl hsum hnd hbd hiff hown
  subst hfl
  have hmem : i ∈ i :: rest := List.mem_cons_self i rest
  have hilt : i < cap := hbd i hmem
  have hndc : i ∉ rest ∧ rest.Nodup := List.nodup_cons.mp hnd
  refine ⟨{ slotIndex := i, gen := (slots i).gen },
    { capacity := cap
      slots := fun j => if j = i then { slots i with used := true, owner := some o } else slots j
      freeList := rest
      usedCount := uc + 1 }, rfl, rfl, rfl, ?_, rfl, rfl, rfl, ?_, ?_⟩
  · refine ⟨?_, hndc.2, ?_, ?_, ?_⟩
    · simp only [List.length_cons] at hsum
      simp only []
      omega
    · intro j hj
      exact hbd j (List.mem_cons_of_mem i hj)
    · intro j hj
      simp only [] at hj ⊢
      by_cases hji : j = i
      · subst hji
        simp only [if_pos rfl]
        constructor
        · intro hcontra; simp at hcontra
        · intro hjr; exact absurd hjr hndc.1
      · simp only [if_neg hji]
        rw [hiff j hj]
        simp [List.mem_cons, hji]
    · intro j hj
      simp only [] at hj ⊢
      by_cases hji : j = i
      · subst hji; simp only [if_pos rfl]; simp
      · simp only [if_neg hji]
        exact hown j hj
  · intro j hj
    simp only [if_neg hj]
  · simp

theorem Pool.free_ok_spec (p : Pool) (h : InstanceSlotHandle) (hInv : p.Inv)
    (hlt : h.slotIndex < p.capacity) (hused : (p.slots h.slotIndex).used = true)
    (hgen : (p.slots h.slotIndex).gen = h.gen) :
    ∃ p', p.free h = .ok p' ∧ p'.Inv ∧ p'.capacity = p.capacity ∧
      p'.usedCount = p.usedCount - 1 ∧ 1 ≤ p.usedCount ∧
      p'.freeList = h.slotIndex :: p.freeList ∧
      (∀ j, j ≠ h.slotIndex → p'.slots j = p.slots j) ∧
      (p'.slots h.slotIndex).used = false ∧
      (p'.slots h.slotIndex).gen = h.gen + 1 := by
  obtain ⟨hsum, hnd, hbd, hiff, hown⟩ := hInv
  have hnotmem : h.slotIndex ∉ p.freeList := by
    intro hm
    have hx := (hiff _ hlt).mpr hm
    rw [hused] at hx
    cases hx
  have hcount : 1 ≤ p.usedCount := by
    have := length_lt_of_nodup_missing p.freeList p.capacity h.slotIndex hnd hbd hlt hnotmem
    omega
  have heq : p.free h = .ok
      { capacity := p.capacity
        slots := fun j => if j = h.slotIndex then
            { gen := (p.slots h.slotIndex).gen + 1, used := false, owner := none }
          else p.slots j
        freeList := h.slotIndex :: p.freeList
        usedCount := p.usedCount - 1 } := by
    unfold Pool.free
    rw [if_pos ⟨hlt, hused, hgen⟩]
  refine ⟨_, heq, ?_, rfl, rfl, hcount, rfl, ?_, ?_, ?_⟩
  · refine ⟨?_, ?_, ?_, ?_, ?_⟩
    · simp only [List.length_cons]
      omega
    · exact List.nodup_cons.mpr ⟨hnotmem, hnd⟩
    · intro j hj
      simp only [] at hj
      rcases List.mem_cons.mp hj with hj | hj
      · subst hj; exact hlt
      · exact hbd j hj
    · intro j hj
      simp only []
      by_cases hji : j = h.slotIndex
      · subst hji
        simp only [if_pos rfl]
        simp [List.mem_cons]
      · simp only [if_neg hji]
        rw [hiff j hj]
        simp [List.mem_cons, hji]
    · intro j hj
      simp only []
      by_cases hji : j = h.slotIndex
      · subst hji; simp only [if_pos rfl]; intro hcontra; simp at hcontra
      · simp only [if_neg hji]
        exact hown j hj
  · intro j hj
    simp only [if_neg hj]
  · simp
  · simp [hgen]

theorem Pool.free_err_of_stale (p : Pool) (h : InstanceSlotHandle)
    (hstale : ¬ (h.slotIndex < p.capacity ∧ (p.slots h.slotIndex).used = true ∧
      (p.slots h.slotIndex).gen = h.gen)) :
    p.free h = .error .StaleHandle := by
  unfold Pool.free
  rw [if_neg hstale]

theorem Pool.applyOp_inv (p : Pool) (op : PoolOp) (hInv : p.Inv) :
    (p.applyOp op).Inv ∧ (p.applyOp op).capacity = p.capacity := by
  match op with
  | .alloc o =>
      match hfl : p.freeList with
      | [] =>
          have happ : p.applyOp (.alloc o) = p := by
            simp only [Pool.applyOp, Pool.allocate_err p o hfl]
          rw [happ]
          exact ⟨hInv, rfl⟩
      | i :: rest =>
          obtain ⟨h, p', heq, _, _, hInv', hcap, _⟩ :=
            p.allocate_ok_spec o i rest hInv hfl
          have happ : p.applyOp (.alloc o) = p' := by
            simp only [Pool.applyOp, heq]
          rw [happ]
          exact ⟨hInv', hcap⟩
  | .free h =>
      by_cases hc : h.slotIndex < p.capacity ∧ (p.slots h.slotIndex).used = true ∧
          (p.slots h.slotIndex).gen = h.gen
      · obtain ⟨p', heq, hInv', hcap, _⟩ :=
          p.free_ok_spec h hInv hc.1 hc.2.1 hc.2.2
        have happ : p.applyOp (.free h) = p' := by
          simp only [Pool.applyOp, heq]
        rw [happ]
        exact ⟨hInv', hcap⟩
      · have happ : p.applyOp (.free h) = p := by
          simp only [Pool.applyOp, Pool.free_err_of_stale p h hc]
        rw [happ]
        exact ⟨hInv, rfl⟩

theorem Pool.runOps_inv (p : Pool) (ops : List PoolOp) (hInv : p.Inv) :
    (p.runOps ops).Inv ∧ (p.runOps ops).capacity = p.capacity := by
  induction ops generalizing p with
  | nil => exact ⟨hInv, rfl⟩
  | cons op ops ih =>
      obtain ⟨h1, h2⟩ := p.applyOp_inv op hInv
      obtain ⟨h3, h4⟩ := ih (p.applyOp op) h1
      rw [Pool.runOps_cons]
      exact ⟨h3, by rw [h4, h2]⟩

/-- Modelled from the spec: a handle is live when it denotes an in-range used
slot whose current generation matches the handle; exactly the handles
`allocate` has issued and `free` has not yet reclaimed. -/
def Pool.LiveHandle (p : Pool) (h : InstanceSlotHandle) : Prop :=
  h.slotIndex < p.capacity ∧ (p.slots h.slotIndex).used = true ∧
  (p.slots h.slotIndex).gen = h.gen

/-- Modelled from the spec: the generation step of a chunk load requests `k`
foliage placements for the owning chunk, allocating one instance slot each
and collecting the issued handles; on `CapacityExhausted` the remaining
placements are skipped (the degrade policy), never corrupting state. -/
def Pool.loadChunk (p : Pool) (owner k : Nat) : List InstanceSlotHandle × Pool :=
  match k with
  | 0 => ([], p)
  | Nat.succ k =>
      match p.allocate owner with
      | .error _ => ([], p)
      | .ok (h, p') =>
          let r := p'.loadChunk owner k
          (h :: r.1, r.2)

/-- Modelled from the spec: unloading a chunk collects the instance-slot
handles it owns and releases each via `InstancePool.free`; a stale handle
fails and releases nothing. -/
def Pool.releaseAll (p : Pool) (hs : List InstanceSlotHandle) : Pool :=
  match hs with
  | [] => p
  | h :: rest =>
      match p.free h with
      | .ok p' => p'.releaseAll rest
      | .error _ => p.releaseAll rest

theorem Pool.loadChunk_spec (o k : Nat) : ∀ (p : Pool), p.Inv →
    (p.loadChunk o k).2.Inv ∧
    (p.loadChunk o k).2.capacity = p.capacity ∧
    (p.loadChunk o k).2.usedCount = p.usedCount + (p.loadChunk o k).1.length ∧
    (p.loadChunk o k).1.length = min k p.freeList.length ∧
    (∀ h ∈ (p.loadChunk o k).1, h.slotIndex < p.capacity ∧
      (p.slots h.slotIndex).used = false ∧ (p.loadChunk o k).2.LiveHandle h) ∧
    ((p.loadChunk o k).1.map InstanceSlotHandle.slotIndex).Nodup ∧
    (∀ j, (p.slots j).used = true → (p.loadChunk o k).2.slots j = p.slots j) := by
  induction k with
  | zero =>
      intro p hInv
      refine ⟨hInv, rfl, rfl, by simp [Pool.loadChunk], ?_, by simp [Pool.loadChunk], ?_⟩
      · intro h hh; simp [Pool.loadChunk] at hh
      · intro j _; rfl
  | succ k ih =>
      intro p hInv
      match hfl : p.freeList with
      | [] =>
          have herr := p.allocate_err o hfl
          have hred : p.loadChunk o (k + 1) = ([], p) := by
            simp [Pool.loadChunk, herr]
          rw [hred]
          refine ⟨hInv, rfl, rfl, by simp [hfl], ?_, by simp, ?_⟩
          · intro h hh; simp at hh
          · intro j _; rfl
      | i :: rest =>
          obtain ⟨h, p', heq, hidx, hhgen, hInv', hcap', hused', hfl', hsame', hseti⟩ :=
            p.allocate_ok_spec o i rest hInv hfl
          have hred : p.loadChunk o (k + 1) =
              (h :: (p'.loadChunk o k).1, (p'.loadChunk o k).2) := by
            simp [Pool.loadChunk, heq]
          obtain ⟨ih1, ih2, ih3, ih4, ih5, ih6, ih7⟩ := ih p' hInv'
          have hiunused : (p.slots i).used = false := by
            obtain ⟨_, _, hbd, hiff, _⟩ := hInv
            exact (hiff i (hbd i (by rw [hfl]; exact List.mem_cons_self i rest))).mpr
              (by rw [hfl]; exact List.mem_cons_self i rest)
          have hilt : i < p.capacity := by
            obtain ⟨_, _, hbd, _, _⟩ := hInv
            exact hbd i (by rw [hfl]; exact List.mem_cons_self i rest)
          have hpi : (p'.slots i).used = true := by rw [hseti]
          rw [hred]
          dsimp only
          refine ⟨ih1, by rw [ih2, hcap'], ?_, ?_, ?_, ?_, ?_⟩
          · simp only [List.length_cons]
            rw [ih3, hused']
            omega
          · simp only [List.length_cons]
            rw [ih4, hfl']
            omega
          · intro h2 hh2
            rcases List.mem_cons.mp hh2 with hh0 | hh0
            · rw [hh0]
              refine ⟨by rw [hidx]; exact hilt, by rw [hidx]; exact hiunused, ?_, ?_, ?_⟩
              · rw [ih2, hcap', hidx]; exact hilt
              · rw [hidx, ih7 i hpi, hseti]
              · rw [hidx, ih7 i hpi, hseti, hhgen]
            · obtain ⟨ha, hb, hc⟩ := ih5 h2 hh0
              have hne : h2.slotIndex ≠ i := by
                intro hcontra
                rw [hcontra, hseti] at hb
                simp at hb
              refine ⟨by rw [← hcap']; exact ha, ?_, hc⟩
              rw [← hsame' h2.slotIndex hne]
              exact hb
          · simp only [List.map_cons]
            refine List.nodup_cons.mpr ⟨?_, ih6⟩
            intro hcontra
            rw [List.mem_map] at hcontra
            obtain ⟨h2, hh2, hidx2⟩ := hcontra
            obtain ⟨_, hb, _⟩ := ih5 h2 hh2
            rw [hidx2, hidx, hseti] at hb
            simp at hb
          · intro j hj
            have hne : j ≠ i := by
              intro hcontra
              rw [hcontra, hiunused] at hj
              cases hj
            have hj' : (p'.slots j).used = true := by
              rw [hsame' j hne]; exact hj
            rw [ih7 j hj', hsame' j hne]

theorem Pool.releaseAll_spec (hs : List InstanceSlotHandle) : ∀ (p : Pool), p.Inv →
    (∀ h ∈ hs, p.LiveHandle h) →
    (hs.map InstanceSlotHandle.slotIndex).Nodup →
    (p.releaseAll hs).Inv ∧
    (p.releaseAll hs).capacity = p.capacity ∧
    (p.releaseAll hs).usedCount = p.usedCount - hs.length ∧
    (∀ i ∈ p.freeList, i ∈ (p.releaseAll hs).freeList) ∧
    (∀ h ∈ hs, h.slotIndex ∈ (p.releaseAll hs).freeList) := by
  induction hs with
  | nil =>
      intro p hInv _ _
      refine ⟨hInv, rfl, rfl, fun i hi => hi, ?_⟩
      intro h hh; cases hh
  | cons h rest ih =>
      intro p hInv hlive hnd
      obtain ⟨hlh, hnd'⟩ := by
        simpa only [List.map_cons, List.nodup_cons] using hnd
      obtain ⟨ha, hb, hc⟩ := hlive h (List.mem_cons_self h rest)
      obtain ⟨p', heq, hInv', hcap', hused', hone, hfl', hsame', _, _⟩ :=
        p.free_ok_spec h hInv ha hb hc
      have hred : p.releaseAll (h :: rest) = p'.releaseAll rest := by
        simp [Pool.releaseAll, heq]
      have hliverest : ∀ h' ∈ rest, p'.LiveHandle h' := by
        intro h' hh'
        obtain ⟨ha', hb', hc'⟩ := hlive h' (List.mem_cons_of_mem h hh')
        have hne : h'.slotIndex ≠ h.slotIndex := by
          intro hcontra
          exact hlh (by rw [← hcontra]; exact List.mem_map_of_mem InstanceSlotHandle.slotIndex hh')
        refine ⟨by rw [hcap']; exact ha', ?_, ?_⟩
        · rw [hsame' h'.slotIndex hne]; exact hb'
        · rw [hsame' h'.slotIndex hne]; exact hc'
      obtain ⟨ih1, ih2, ih3, ih4, ih5⟩ := ih p' hInv' hliverest hnd'
      rw [hred]
      refine ⟨ih1, by rw [ih2, hcap'], ?_, ?_, ?_⟩
      · rw [ih3, hused']
        simp only [List.length_cons]
        omega
      · intro i hi
        exact ih4 i (by rw [hfl']; exact List.mem_cons_of_mem h.slotIndex hi)
      · intro h' hh'
        rcases List.mem_cons.mp hh' with hh' | hh'
        · subst hh'
          exact ih4 h'.slotIndex (by rw [hfl']; exact List.mem_cons_self h'.slotIndex p.freeList)
        · exact ih5 h' hh'

/-! ## ChunkStore

Modelled from the spec: the `ChunkStore` component (spec section 4.3) is not
present in the repository snapshot.  It owns the resident chunk records and
enforces one chunk per coordinate. -/

/-- Modelled from the spec: `ChunkCoordinate`, an immutable integer pair used
as the residency key. -/
abbrev ChunkCoordinate := Int × Int

/-- Modelled from the spec: a resident chunk record: its coordinate and the
instance-slot handles it owns (the height grid and chunk state are not needed
for the residency claims). -/
structure ChunkRec where
  coord : ChunkCoordinate
  handles : List InstanceSlotHandle
  deriving Repr, DecidableEq

/-- Modelled from the spec: failure taxonomy of the chunk store
(spec section 7). -/
inductive StoreError where
  | DuplicateCoordinate
  deriving Repr, DecidableEq

/-- Modelled from the spec: the set of currently resident chunks. -/
structure ChunkStore where
  chunks : List ChunkRec
  deriving Repr, DecidableEq

/-- Modelled from the spec: the store with no resident chunk. -/
def emptyStore : ChunkStore := { chunks := [] }

/-- Modelled from the spec: `get(coordinate) -> Chunk | absent`. -/
def ChunkStore.get (s : ChunkStore) (c : ChunkCoordinate) : Option ChunkRec :=
  s.chunks.find? (fun r => decide (r.coord = c))

/-- Modelled from the spec: `insert(coordinate, generatedData)` fails with
`DuplicateCoordinate` if a chunk with that coordinate is already present and
never overwrites the existing record; otherwise the new record becomes
resident. -/
def ChunkStore.insert (s : ChunkStore) (c : ChunkCoordinate)
    (hs : List InstanceSlotHandle) : Except StoreError ChunkStore :=
  if (s.get c).isSome then .error .DuplicateCoordinate
  else .ok { chunks := { coord := c, handles := hs } :: s.chunks }

/-- Modelled from the spec: `remove(coordinate)` takes the chunk out of
residency and returns the instance-slot handles it owned to the caller for
release via `InstancePool`. -/
def ChunkStore.remove (s : ChunkStore) (c : ChunkCoordinate) :
    List InstanceSlotHandle × ChunkStore :=
  match s.get c with
  | none => ([], s)
  | some r => (r.handles, { chunks := s.chunks.filter (fun q => !(decide (q.coord = c))) })

/-- Modelled from the spec: one lifecycle call against the store. -/
inductive StoreOp where
  | insertOp (c : ChunkCoordinate) (hs : List InstanceSlotHandle)
  | removeOp (c : ChunkCoordinate)
  deriving Repr, DecidableEq

/-- Modelled from the spec: apply one lifecycle call; a failing insert leaves
the store unchanged. -/
def ChunkStore.applyOp (s : ChunkStore) (op : StoreOp) : ChunkStore :=
  match op with
  | .insertOp c hs =>
      match s.insert c hs with
      | .ok s' => s'
      | .error _ => s
  | .removeOp c => (s.remove c).2

/-- Modelled from the spec: run an arbitrary sequence of insert/remove calls. -/
def ChunkStore.runOps (s : ChunkStore) (ops : List StoreOp) : ChunkStore :=
  ops.foldl ChunkStore.applyOp s

/-- Modelled from the spec: the residency invariant: no two resident records
claim the same coordinate. -/
def ChunkStore.Coherent (s : ChunkStore) : Prop :=
  (s.chunks.map ChunkRec.coord).Nodup

theorem ChunkStore.get_eq_none_iff (s : ChunkStore) (c : ChunkCoordinate) :
    s.get c = none ↔ c ∉ s.chunks.map ChunkRec.coord := by
  unfold ChunkStore.get
  rw [List.find?_eq_none]
  constructor
  · intro h hmem
    obtain ⟨r, hr, hrc⟩ := List.mem_map.mp hmem
    exact absurd (by simpa using hrc) (by simpa using h r hr)
  · intro h r hr
    simp only [decide_eq_true_eq]
    intro hrc
    exact h (List.mem_map.mpr ⟨r, hr, hrc⟩)

theorem ChunkStore.insert_duplicate (s : ChunkStore) (c : ChunkCoordinate)
    (hs : List InstanceSlotHandle) (hpres : (s.get c).isSome) :
    s.insert c hs = .error .DuplicateCoordinate := by
  unfold ChunkStore.insert
  rw [if_pos hpres]

theorem ChunkStore.applyOp_coherent (s : ChunkStore) (op : StoreOp)
    (h : s.Coherent) : (s.applyOp op).Coherent := by
  match op with
  | .insertOp c hs =>
      by_cases hp : (s.get c).isSome
      · have : s.applyOp (.insertOp c hs) = s := by
          simp only [ChunkStore.applyOp, s.insert_duplicate c hs hp]
        rw [this]; exact h
      · have hnone : s.get c = none := Option.not_isSome_iff_eq_none.mp hp
        have hstep : s.applyOp (.insertOp c hs) =
            { chunks := { coord := c, handles := hs } :: s.chunks } := by
          simp only [ChunkStore.applyOp, ChunkStore.insert, hnone]
          simp
        rw [hstep]
        unfold ChunkStore.Coherent at h ⊢
        simp only [List.map_cons, List.nodup_cons]
        exact ⟨(s.get_eq_none_iff c).mp hnone, h⟩
  | .removeOp c =>
      match hg : s.get c with
      | none =>
          have : s.applyOp (.removeOp c) = s := by
            simp only [ChunkStore.applyOp, ChunkStore.remove, hg]
          rw [this]; exact h
      | some r =>
          have hstep : s.applyOp (.removeOp c) =
              { chunks := s.chunks.filter (fun q => !(decide (q.coord = c))) } := by
            simp only [ChunkStore.applyOp, ChunkStore.remove, hg]
          rw [hstep]
          unfold ChunkStore.Coherent at h ⊢
          exact (List.Sublist.map ChunkRec.coord (List.filter_sublist s.chunks)).nodup h

theorem ChunkStore.runOps_coherent (s : ChunkStore) (ops : List StoreOp)
    (h : s.Coherent) : (s.runOps ops).Coherent := by
  induction ops generalizing s with
  | nil => exact h
  | cons op ops ih => exact ih (s.applyOp op) (s.applyOp_coherent op h)

theorem count_le_one_of_nodup_map (l : List ChunkRec) (c : ChunkCoordinate)
    (h : (l.map ChunkRec.coord).Nodup) :
    (l.filter (fun r => decide (r.coord = c))).length ≤ 1 := by
  induction l with
  | nil => simp
  | cons r l ih =>
      simp only [List.map_cons, List.nodup_cons] at h
      by_cases hc : r.coord = c
      · have hnone : l.filter (fun q => decide (q.coord = c)) = [] := by
          rw [List.filter_eq_nil_iff]
          intro a ha
          simp only [decide_eq_true_eq]
          intro hac
          exact h.1 (List.mem_map.mpr ⟨a, ha, by rw [hac, hc]⟩)
        simp [List.filter_cons, hc, hnone]
      · simp only [List.filter_cons, decide_eq_true_eq, hc, if_false]
        exact ih h.2

/-! ## StreamingScheduler

Modelled from the spec: the `StreamingScheduler` component (spec sections 4.4
and 5) is not present in the repository snapshot.  Only the scheduler data
relevant to the concurrency bound is modelled: the per-coordinate Queued /
Generating / Ready population and the tunable bound `K`. -/

/-- Modelled from the spec: scheduler state: the concurrency bound `K`, the
coordinates whose Load WorkOrders are Queued, the coordinates currently
Generating in flight, and the Ready resident coordinates. -/
structure Sched where
  K : Nat
  queued : List ChunkCoordinate
  generating : List ChunkCoordinate
  ready : List ChunkCoordinate
  deriving Repr, DecidableEq

/-- Modelled from the spec: scheduler transitions: a tick enqueues a Load
WorkOrder; the scheduler pulls a Queued order into Generating; asynchronous
generation completion moves a Generating coordinate to Ready; a Queued order
can be cancelled cheaply before generation starts; an unload removes a Ready
coordinate from residency. -/
inductive SchedEvent where
  | enqueue (c : ChunkCoordinate)
  | startGen (c : ChunkCoordinate)
  | completeGen (c : ChunkCoordinate)
  | cancel (c : ChunkCoordinate)
  | unload (c : ChunkCoordinate)
  deriving Repr, DecidableEq

/-- Modelled from the spec: one scheduler transition.  `enqueue` skips a
coordinate already Queued, Generating or Ready; `startGen` pulls the next
Queued WorkOrder into Generating only when fewer than `K` are in flight (an
in-flight slot must free first); `completeGen` is signalled by the
asynchronous generation work; other events leave the counts of unrelated
states untouched. -/
def Sched.step (s : Sched) (e : SchedEvent) : Sched :=
  match e with
  | .enqueue c =>
      if c ∈ s.queued ∨ c ∈ s.generating ∨ c ∈ s.ready then s
      else { s with queued := s.queued ++ [c] }
  | .startGen c =>
      if c ∈ s.queued ∧ s.generating.length < s.K then
        { s with queued := s.queued.erase c, generating := c :: s.generating }
      else s
  | .completeGen c =>
      if c ∈ s.generating then
        { s with generating := s.generating.erase c, ready := c :: s.ready }
      else s
  | .cancel c => { s with queued := s.queued.erase c }
  | .unload c => { s with ready := s.ready.erase c }

/-- Modelled from the spec: run a sequence of scheduler transitions. -/
def Sched.run (s : Sched) (es : List SchedEvent) : Sched :=
  es.foldl Sched.step s

/-- Modelled from the spec: discriminates the scheduler-pull events for the
five-orders scenario, in which no in-flight slot ever frees. -/
def SchedEvent.isStartGen : SchedEvent → Bool
  | .startGen _ => true
  | _ => false

/-- Modelled from the spec: K = 2 with five simultaneous Load WorkOrders
queued and nothing yet in flight. -/
def sched5 : Sched :=
  { K := 2
    queued := [(0, 0), (1, 0), (2, 0), (3, 0), (4, 0)]
    generating := []
    ready := [] }

theorem Sched.step_bound (s : Sched) (e : SchedEvent)
    (h : s.generating.length ≤ s.K) :
    (s.step e).generating.length ≤ (s.step e).K ∧ (s.step e).K = s.K := by
  match e with
  | .enqueue c =>
      by_cases hc : c ∈ s.queued ∨ c ∈ s.generating ∨ c ∈ s.ready <;>
        simp [Sched.step, hc, h]
  | .startGen c =>
      by_cases hc : c ∈ s.queued ∧ s.generating.length < s.K
      · simp only [Sched.step, if_pos hc, List.length_cons]
        exact ⟨hc.2, trivial⟩
      · simp only [Sched.step, if_neg hc]
        exact ⟨h, trivial⟩
  | .completeGen c =>
      by_cases hc : c ∈ s.generating
      · simp only [Sched.step, if_pos hc]
        refine ⟨le_trans ?_ h, trivial⟩
        exact (List.erase_sublist c s.generating).length_le
      · simp only [Sched.step, if_neg hc]
        exact ⟨h, trivial⟩
  | .cancel c => exact ⟨h, rfl⟩
  | .unload c => exact ⟨h, rfl⟩

theorem Sched.run_bound (es : List SchedEvent) : ∀ s : Sched,
    s.generating.length ≤ s.K →
    (s.run es).generating.length ≤ s.K ∧ (s.run es).K = s.K := by
  induction es with
  | nil => intro s h; exact ⟨h, rfl⟩
  | cons e es ih =>
      intro s h
      obtain ⟨h1, h2⟩ := s.step_bound e h
      obtain ⟨h3, h4⟩ := ih (s.step e) h1
      rw [h2] at h3 h4
      exact ⟨h3, h4⟩

theorem Sched.run_startOnly (es : List SchedEvent) : ∀ s : Sched,
    (∀ e ∈ es, e.isStartGen = true) →
    (s.run es).queued.length + (s.run es).generating.length =
      s.queued.length + s.generating.length := by
  induction es with
  | nil => intro s _; rfl
  | cons e es ih =>
      intro s hall
      have hstep : (s.step e).queued.length + (s.step e).generating.length =
          s.queued.length + s.generating.length := by
        match e with
        | .startGen c =>
            by_cases hc : c ∈ s.queued ∧ s.generating.length < s.K
            · simp only [Sched.step, if_pos hc, List.length_cons]
              have hpos : 0 < s.queued.length := List.length_pos.mpr
                (List.ne_nil_of_mem hc.1)
              have herase : (s.queued.erase c).length = s.queued.length - 1 :=
                List.length_erase_of_mem hc.1
              omega
            · simp only [Sched.step, if_neg hc]
        | .enqueue c => exact absurd (hall _ (List.mem_cons_self _ _)) (by simp [SchedEvent.isStartGen])
        | .completeGen c => exact absurd (hall _ (List.mem_cons_self _ _)) (by simp [SchedEvent.isStartGen])
        | .cancel c => exact absurd (hall _ (List.mem_cons_self _ _)) (by simp [SchedEvent.isStartGen])
        | .unload c => exact absurd (hall _ (List.mem_cons_self _ _)) (by simp [SchedEvent.isStartGen])
      have hrest := ih (s.step e) (fun e' he' => hall e' (List.mem_cons_of_mem e he'))
      calc (s.run (e :: es)).queued.length + (s.run (e :: es)).generating.length
          = ((s.step e).run es).queued.length + ((s.step e).run es).generating.length := rfl
        _ = (s.step e).queued.length + (s.step e).generating.length := hrest
        _ = s.queued.length + s.generating.length := hstep

/-! ## SpatialIndex

Modelled from the spec: the `SpatialIndex` component (spec section 4.1) is
not present in the repository snapshot.  World positions are modelled at
integer resolution; the chunk coordinate is the floor division of the
position by the chunk size, and the desired set is the Chebyshev ball of
`viewRadius` chunks around the observer's chunk coordinate. -/

/-- Modelled from the spec: `chunkCoordinateFor(position)`: deterministic
floor division of the world x/z position by the chunk size; no side
effects. -/
def chunkCoordinateFor (chunkSize x z : Int) : ChunkCoordinate :=
  (Int.fdiv x chunkSize, Int.fdiv z chunkSize)

/-- Modelled from the spec: `desiredSet(observerPosition, viewRadius)`: the
set of all chunk coordinates within `viewRadius` chunks (Chebyshev distance,
applied consistently on both axes) of the observer's chunk coordinate,
returned as a set so downstream diffing is order-independent. -/
def desiredSet (chunkSize x z viewRadius : Int) : Finset ChunkCoordinate :=
  Finset.Icc ((chunkCoordinateFor chunkSize x z).1 - viewRadius)
      ((chunkCoordinateFor chunkSize x z).1 + viewRadius) ×ˢ
    Finset.Icc ((chunkCoordinateFor chunkSize x z).2 - viewRadius)
      ((chunkCoordinateFor chunkSize x z).2 + viewRadius)

/-! ## FrameDriver

Embedded from `src/src/main_original_backup.ts`: the `PixelArtSandbox` class
builds an ordered list of game systems and its `animate` loop updates them
once per frame, gated on `isInitialized`. -/

/-- The game systems placed on the update list by
`PixelArtSandbox.initializeSystems` (main_original_backup.ts lines
186-201). -/
inductive SystemId where
  | assetLoader
  | audioManager
  | globalBillboardSystem
  | chunkManager
  | waterSystem
  | playerController
  | firstPersonWeapon
  | combatantSystem
  | zoneManager
  | ticketSystem
  | playerHealthSystem
  | minimapSystem
  | hudSystem
  | skybox
  deriving Repr, DecidableEq, Fintype

/-- The update list in its source order (`this.systems = [...]`,
main_original_backup.ts lines 186-201): the global billboard system — the
`InstancePool` role, whose update performs the camera-facing pass — comes
before the chunk manager — the `StreamingScheduler` role, whose update
consumes camera-relative data — which comes before the player controller,
whose update feeds the player position into the chunk manager. -/
def systemsOrder : List SystemId :=
  [.assetLoader, .audioManager, .globalBillboardSystem, .chunkManager,
   .waterSystem, .playerController, .firstPersonWeapon, .combatantSystem,
   .zoneManager, .ticketSystem, .playerHealthSystem, .minimapSystem,
   .hudSystem, .skybox]

/-- Observable effects of one animation frame. -/
inductive FrameEffect where
  | update (s : SystemId)
  | skyboxFollow
  | render
  | renderWeapon
  deriving Repr, DecidableEq

/-- Embeds `PixelArtSandbox.animate` (main_original_backup.ts lines 298-320):
when `isInitialized` is false the frame returns immediately, producing no
effect; otherwise every system on the list is updated once in list order,
the skybox follows the camera, the scene is rendered and the weapon overlay
is rendered on top. -/
def animateEffects (isInitialized : Bool) : List FrameEffect :=
  if isInitialized then
    systemsOrder.map FrameEffect.update ++
      [.skyboxFollow, .render, .renderWeapon]
  else []

/-- Initialization-gating state of `PixelArtSandbox`: how many of the
systems' `init()` calls have resolved, and the `isInitialized` flag. -/
structure AppState where
  initsCompleted : Nat
  isInitialized : Bool
  deriving Repr, DecidableEq

/-- The number of systems on the update list. -/
def numSystems : Nat := systemsOrder.length

/-- Events of the surrounding program: one `await system.init()` resolving
inside the sequential loop of `initializeSystems` (lines 204-206), the
`this.isInitialized = true` assignment that the method only reaches after
every init has resolved (line 221), and one animation frame. -/
inductive AppEvent where
  | initStep
  | finishInit
  | frame
  deriving Repr, DecidableEq

/-- One program step: the state after the event together with the frame
effects it emits.  `initializeSystems` awaits inits strictly in sequence, so
`finishInit` can only happen once all `numSystems` inits have resolved; a
frame emits exactly `animateEffects isInitialized`. -/
def AppState.step (st : AppState) (e : AppEvent) : AppState × List FrameEffect :=
  match e with
  | .initStep =>
      if st.initsCompleted < numSystems then
        ({ st with initsCompleted := st.initsCompleted + 1 }, [])
      else (st, [])
  | .finishInit =>
      if st.initsCompleted = numSystems then
        ({ st with isInitialized := true }, [])
      else (st, [])
  | .frame => (st, animateEffects st.isInitialized)

/-- The state before `initializeSystems` has resolved any init. -/
def initialApp : AppState := { initsCompleted := 0, isInitialized := false }

/-- The step-by-step trace of a run: for each event, the state at which it
fired and the frame effects it emitted. -/
def AppState.trace (st : AppState) (es : List AppEvent) :
    List (AppState × List FrameEffect) :=
  match es with
  | [] => []
  | e :: rest => (st, (st.step e).2) :: (st.step e).1.trace rest

/-- Initialization progress invariant: the `isInitialized` flag is only ever
set after all inits have resolved. -/
def AppState.InitOk (st : AppState) : Prop :=
  st.isInitialized = true → st.initsCompleted = numSystems

theorem AppState.step_initOk (st : AppState) (e : AppEvent)
    (h : st.InitOk) : (st.step e).1.InitOk := by
  unfold AppState.InitOk at h ⊢
  match e with
  | .initStep =>
      by_cases hc : st.initsCompleted < numSystems
      · simp only [AppState.step, if_pos hc]
        intro hi
        have := h hi
        omega
      · simp only [AppState.step, if_neg hc]
        exact h
  | .finishInit =>
      by_cases hc : st.initsCompleted = numSystems
      · simp only [AppState.step, if_pos hc]
        intro _
        exact hc
      · simp only [AppState.step, if_neg hc]
        exact h
  | .frame => exact h

theorem AppState.trace_gated (es : List AppEvent) : ∀ st : AppState,
    st.InitOk →
    ∀ pr ∈ st.trace es, pr.2 ≠ [] →
      pr.1.isInitialized = true ∧ pr.1.initsCompleted = numSystems := by
  induction es with
  | nil => intro st _ pr hpr; cases hpr
  | cons e es ih =>
      intro st hok pr hpr hne
      rcases List.mem_cons.mp hpr with hpr | hpr
      · rw [hpr] at hne ⊢
        match e with
        | .initStep =>
            exfalso
            apply hne
            by_cases hc : st.initsCompleted < numSystems <;>
              simp [AppState.step, hc]
        | .finishInit =>
            exfalso
            apply hne
            by_cases hc : st.initsCompleted = numSystems <;>
              simp [AppState.step, hc]
        | .frame =>
            match hinit : st.isInitialized with
            | false =>
                exfalso
                apply hne
                simp [AppState.step, animateEffects, hinit]
            | true => exact ⟨rfl, hok hinit⟩
      · exact ih (st.step e).1 (st.step_initOk e hok) pr hpr hne

/-! ## PlayerController camera pitch

Embedded from `src/unnamed/part_000` (`PlayerController`): the pitch/yaw
accumulators, their integration of mouse movement under pointer lock, and the
camera rotation written on every `updateCamera` call.  Angles are modelled as
real numbers. -/

/-- Modelled from the spec: the repository's `MathUtils.clamp`
(`src/utils/Math`) is not in the snapshot; the standard clamp of `x` to
`[lo, hi]` used by `PlayerController.updateCamera` is assumed. -/
noncomputable def clamp (x lo hi : ℝ) : ℝ := min (max x lo) hi

/-- Embeds `PlayerController.maxPitch = Math.PI / 2 - 0.1` (part_000 line 20),
preventing full vertical rotation. -/
noncomputable def maxPitch : ℝ := Real.pi / 2 - 0.1

/-- Camera-orientation state of `PlayerController`: the `pitch` and `yaw`
accumulators (part_000 lines 18-19) and the camera rotation written by
`updateCamera` (lines 233-235, rotation order YXZ). -/
structure CameraState where
  pitch : ℝ
  yaw : ℝ
  camRotX : ℝ
  camRotY : ℝ

/-- One frame of look input: whether the pointer is locked and the
sensitivity-scaled mouse movement accumulated by `onMouseMove`
(part_000 lines 124-130). -/
structure MouseFrame where
  isPointerLocked : Bool
  dx : ℝ
  dy : ℝ

/-- Embeds `PlayerController.updateCamera` (part_000 lines 220-239): under pointer
lock the yaw and pitch integrate the mouse movement, the pitch being clamped
to `[-maxPitch, maxPitch]`; the camera rotation is then written from pitch
and yaw unconditionally. -/
noncomputable def updateCamera (st : CameraState) (m : MouseFrame) : CameraState :=
  let pitch1 := if m.isPointerLocked then
      clamp (st.pitch - m.dy) (-maxPitch) maxPitch
    else st.pitch
  let yaw1 := if m.isPointerLocked then st.yaw - m.dx else st.yaw
  { pitch := pitch1, yaw := yaw1, camRotX := pitch1, camRotY := yaw1 }

/-- The initial camera orientation: `pitch = 0`, `yaw = 0` (part_000 lines
18-19), with the camera rotation as first written by `updateCamera`. -/
def initCamera : CameraState := { pitch := 0, yaw := 0, camRotX := 0, camRotY := 0 }

/-- A sequence of frames: `update` calls `updateCamera` once per frame
(part_000 lines 47-55). -/
noncomputable def runCamera (st : CameraState) (ms : List MouseFrame) : CameraState :=
  ms.foldl updateCamera st

theorem maxPitch_pos : 0 < maxPitch := by
  unfold maxPitch
  have h := Real.pi_gt_three
  norm_num
  linarith

theorem clamp_mem (x lo hi : ℝ) (h : lo ≤ hi) :
    lo ≤ clamp x lo hi ∧ clamp x lo hi ≤ hi := by
  unfold clamp
  constructor
  · exact le_min (le_trans (le_max_right x lo) (le_refl _)) h |>.trans (le_refl _) |>.trans_eq rfl
  · exact min_le_right _ _

theorem updateCamera_bounded (st : CameraState) (m : MouseFrame)
    (h : |st.pitch| ≤ maxPitch) : |(updateCamera st m).pitch| ≤ maxPitch := by
  unfold updateCamera
  by_cases hl : m.isPointerLocked
  · simp only [hl, if_true]
    have hle : -maxPitch ≤ maxPitch := by
      have := maxPitch_pos; linarith
    obtain ⟨h1, h2⟩ := clamp_mem (st.pitch - m.dy) (-maxPitch) maxPitch hle
    exact abs_le.mpr ⟨h1, h2⟩
  · simp only [hl, if_false]
    exact h

theorem runCamera_bounded (ms : List MouseFrame) : ∀ st : CameraState,
    |st.pitch| ≤ maxPitch →
    |(runCamera st ms).pitch| ≤ maxPitch := by
  induction ms with
  | nil => intro st h; exact h
  | cons m ms ih =>
      intro st h
      exact ih (updateCamera st m) (updateCamera_bounded st m h)

theorem runCamera_rot (ms : List MouseFrame) : ∀ st : CameraState,
    st.camRotX = st.pitch →
    (runCamera st ms).camRotX = (runCamera st ms).pitch := by
  induction ms with
  | nil => intro st h; exact h
  | cons m ms ih =>
      intro st _
      exact ih (updateCamera st m) rfl

/-! ## Claim theorems -/

theorem Pool.allocate_full (p : Pool) (o : Nat) (hInv : p.Inv)
    (hfull : p.usedCount = p.capacity) :
    p.allocate o = .error .CapacityExhausted ∧
    (p.applyOp (.alloc o)).usedCount = p.capacity := by
  have hlen : p.freeList.length = 0 := by
    have := hInv.1
    omega
  have hnil : p.freeList = [] := List.length_eq_zero.mp hlen
  have herr := p.allocate_err o hnil
  refine ⟨herr, ?_⟩
  have hsame : p.applyOp (.alloc o) = p := by
    simp only [Pool.applyOp, herr]
  rw [hsame, hfull]

/-- C1: for every sequence of allocate and free calls on an instance-pool
category of any capacity `c`, the category's `usedCount` never exceeds its
fixed capacity, every index on the free-list is unused, and every used index
belongs to exactly one live owning chunk. -/
theorem instancePool_invariant (c : Nat) (ops : List PoolOp) :
    ((initPool c).runOps ops).usedCount ≤ c ∧
    ((initPool c).runOps ops).capacity = c ∧
    (∀ i ∈ ((initPool c).runOps ops).freeList,
      (((initPool c).runOps ops).slots i).used = false) ∧
    (∀ i, i < c → (((initPool c).runOps ops).slots i).used = true →
      ∃! ow : Nat, (((initPool c).runOps ops).slots i).owner = some ow) := by
  obtain ⟨hInv, hcap⟩ := (initPool c).runOps_inv ops (initPool_inv c)
  obtain ⟨hsum, hnd, hbd, hiff, hown⟩ := hInv
  rw [hcap, show (initPool c).capacity = c from rfl] at hsum
  refine ⟨by omega, hcap, ?_, ?_⟩
  · intro i hi
    exact (hiff i (hbd i hi)).mpr hi
  · intro i hic hiu
    have h1 := hown i (by rw [hcap]; exact hic) hiu
    obtain ⟨ow, how⟩ := Option.ne_none_iff_exists'.mp h1
    refine ⟨ow, how, ?_⟩
    intro y hy
    rw [how] at hy
    exact (Option.some_injective Nat hy).symm

/-- Witness for C1: a concrete run at capacity 2 (two allocations and one
free), whose usedCount evaluates to 1 and is within capacity. -/
theorem instancePool_invariant_witness :
    ((initPool 2).runOps [PoolOp.alloc 7, PoolOp.alloc 8,
        PoolOp.free { slotIndex := 0, gen := 0 }]).usedCount = 1 ∧
    ((initPool 2).runOps [PoolOp.alloc 7, PoolOp.alloc 8,
        PoolOp.free { slotIndex := 0, gen := 0 }]).usedCount ≤ 2 :=
  ⟨by decide,
   (instancePool_invariant 2 [PoolOp.alloc 7, PoolOp.alloc 8,
      PoolOp.free { slotIndex := 0, gen := 0 }]).1⟩

/-- C2: `free` on a handle whose generation counter does not match its
slot's current generation fails with `StaleHandle` and leaves the pool
unchanged (no slot modified, no free-list entry added), while `free` on a
live handle with matching generation returns the slot to the free-list,
bumps its generation, and touches no other slot. -/
theorem free_stale_and_matching (p : Pool) (h : InstanceSlotHandle)
    (hInv : p.Inv) :
    ((p.slots h.slotIndex).gen ≠ h.gen →
      p.free h = .error .StaleHandle ∧ p.applyOp (.free h) = p) ∧
    (h.slotIndex < p.capacity → (p.slots h.slotIndex).used = true →
      (p.slots h.slotIndex).gen = h.gen →
      ∃ p', p.free h = .ok p' ∧
        p'.freeList = h.slotIndex :: p.freeList ∧
        (p'.slots h.slotIndex).gen = h.gen + 1 ∧
        (p'.slots h.slotIndex).used = false ∧
        p'.usedCount = p.usedCount - 1 ∧
        (∀ j, j ≠ h.slotIndex → p'.slots j = p.slots j)) := by
  constructor
  · intro hne
    have herr := p.free_err_of_stale h (fun hc => hne hc.2.2)
    refine ⟨herr, ?_⟩
    simp only [Pool.applyOp, herr]
  · intro hlt hused hgen
    obtain ⟨p', heq, hInv', hcap', huc, hone, hfl, hsame, hunused, hgen'⟩ :=
      p.free_ok_spec h hInv hlt hused hgen
    exact ⟨p', heq, hfl, hgen', hunused, huc, hsame⟩

/-- Witness for C2: on a fresh capacity-1 pool the handle (0, 1) is stale
(the slot's generation is 0) and freeing it fails with `StaleHandle`. -/
theorem free_stale_and_matching_witness :
    ((initPool 1).slots 0).gen ≠ 1 ∧
    (initPool 1).free { slotIndex := 0, gen := 1 } = .error .StaleHandle :=
  ⟨by decide,
   ((free_stale_and_matching (initPool 1) { slotIndex := 0, gen := 1 }
      (initPool_inv 1)).1 (by decide)).1⟩

/-- C3: after any sequence of insert/remove calls from the empty store, at
most one chunk record exists per coordinate, and inserting at a coordinate
already present fails with `DuplicateCoordinate`, leaving the store
unchanged (never silently overwriting). -/
theorem chunkStore_one_per_coordinate (ops : List StoreOp)
    (c : ChunkCoordinate) (hs : List InstanceSlotHandle) :
    ((emptyStore.runOps ops).chunks.filter
        (fun r => decide (r.coord = c))).length ≤ 1 ∧
    (((emptyStore.runOps ops).get c).isSome = true →
      (emptyStore.runOps ops).insert c hs = .error .DuplicateCoordinate ∧
      (emptyStore.runOps ops).applyOp (.insertOp c hs) = emptyStore.runOps ops) := by
  have hco : (emptyStore.runOps ops).Coherent :=
    emptyStore.runOps_coherent ops (by simp [ChunkStore.Coherent, emptyStore])
  refine ⟨count_le_one_of_nodup_map _ c hco, ?_⟩
  intro hp
  have herr := (emptyStore.runOps ops).insert_duplicate c hs hp
  refine ⟨herr, ?_⟩
  simp only [ChunkStore.applyOp, herr]

/-- Witness for C3: after inserting (0, 0) into the empty store, the
coordinate is present and a second insert fails with
`DuplicateCoordinate`. -/
theorem chunkStore_one_per_coordinate_witness :
    ((emptyStore.runOps [StoreOp.insertOp (0, 0) []]).get (0, 0)).isSome = true ∧
    (emptyStore.runOps [StoreOp.insertOp (0, 0) []]).insert (0, 0) [] =
      .error .DuplicateCoordinate :=
  ⟨by decide,
   ((chunkStore_one_per_coordinate [StoreOp.insertOp (0, 0) []] (0, 0) []).2
      (by decide)).1⟩

/-- C4: loading a chunk (allocating `k` instance slots for its foliage) and
then immediately unloading it (releasing every collected handle) restores
the category's `usedCount` to its pre-load value, keeps the invariant, and
returns every allocated slot index to the free-list. -/
theorem load_unload_roundtrip (p : Pool) (owner k : Nat) (hInv : p.Inv) :
    ((p.loadChunk owner k).2.releaseAll (p.loadChunk owner k).1).usedCount =
      p.usedCount ∧
    ((p.loadChunk owner k).2.releaseAll (p.loadChunk owner k).1).capacity =
      p.capacity ∧
    ((p.loadChunk owner k).2.releaseAll (p.loadChunk owner k).1).Inv ∧
    (∀ h ∈ (p.loadChunk owner k).1, h.slotIndex ∈
      ((p.loadChunk owner k).2.releaseAll (p.loadChunk owner k).1).freeList) := by
  obtain ⟨h1, h2, h3, h4, h5, h6, h7⟩ := Pool.loadChunk_spec owner k p hInv
  obtain ⟨g1, g2, g3, g4, g5⟩ := Pool.releaseAll_spec (p.loadChunk owner k).1
    (p.loadChunk owner k).2 h1 (fun h hh => (h5 h hh).2.2) h6
  refine ⟨?_, by rw [g2, h2], g1, g5⟩
  rw [g3, h3]
  omega

/-- Witness for C4: loading two foliage slots into a fresh capacity-2 pool
and immediately releasing them evaluates back to usedCount 0, the pre-load
value. -/
theorem load_unload_roundtrip_witness :
    (((initPool 2).loadChunk 7 2).2.releaseAll
        ((initPool 2).loadChunk 7 2).1).usedCount = 0 ∧
    (((initPool 2).loadChunk 7 2).2.releaseAll
        ((initPool 2).loadChunk 7 2).1).usedCount = (initPool 2).usedCount :=
  ⟨by decide, (load_unload_roundtrip (initPool 2) 7 2 (initPool_inv 2)).1⟩

/-- C5: from any scheduler state within its bound, after any sequence of
transitions at most `K` chunks are Generating; in particular with K = 2 and
five Load WorkOrders queued simultaneously, as long as no in-flight slot
frees, at most 2 coordinates are Generating at any single point and at
least 3 remain Queued. -/
theorem scheduler_generating_bound (s : Sched) (es : List SchedEvent)
    (hb : s.generating.length ≤ s.K) :
    (s.run es).generating.length ≤ s.K ∧
    (∀ es5 : List SchedEvent, (∀ e ∈ es5, e.isStartGen = true) →
      (sched5.run es5).generating.length ≤ 2 ∧
      3 ≤ (sched5.run es5).queued.length) := by
  refine ⟨(Sched.run_bound es s hb).1, ?_⟩
  intro es5 hall
  have hbound := (Sched.run_bound es5 sched5 (by decide)).1
  have hsum := Sched.run_startOnly es5 sched5 hall
  have hk : sched5.K = 2 := rfl
  have h5 : sched5.queued.length + sched5.generating.length = 5 := by decide
  rw [hk] at hbound
  constructor
  · exact hbound
  · omega

/-- Witness for C5: three scheduler pulls against the five-orders scenario
leave exactly 2 Generating; the third pull is refused by the bound. -/
theorem scheduler_generating_bound_witness :
    sched5.generating.length ≤ sched5.K ∧
    (sched5.run [SchedEvent.startGen (0, 0), SchedEvent.startGen (1, 0),
        SchedEvent.startGen (2, 0)]).generating.length ≤ sched5.K :=
  ⟨by decide,
   (scheduler_generating_bound sched5 [SchedEvent.startGen (0, 0),
      SchedEvent.startGen (1, 0), SchedEvent.startGen (2, 0)] (by decide)).1⟩

/-- C6: allocate on a category whose `usedCount` has reached its capacity
fails with `CapacityExhausted` and leaves `usedCount` at capacity; in
particular on a capacity-1000 category, 1000 allocations all succeed and
the 1001st fails with `CapacityExhausted`, `usedCount` remaining 1000. -/
theorem allocate_capacity_exhausted (p : Pool) (o : Nat) (hInv : p.Inv)
    (hfull : p.usedCount = p.capacity) :
    (p.allocate o = .error .CapacityExhausted ∧
      (p.applyOp (.alloc o)).usedCount = p.capacity) ∧
    (((initPool 1000).loadChunk 0 1000).1.length = 1000 ∧
      ((initPool 1000).loadChunk 0 1000).2.usedCount = 1000 ∧
      ∀ o2 : Nat,
        ((initPool 1000).loadChunk 0 1000).2.allocate o2 =
          .error .CapacityExhausted ∧
        (((initPool 1000).loadChunk 0 1000).2.applyOp (.alloc o2)).usedCount =
          1000) := by
  refine ⟨p.allocate_full o hInv hfull, ?_⟩
  obtain ⟨h1, h2, h3, h4, h5, h6, h7⟩ :=
    Pool.loadChunk_spec 0 1000 (initPool 1000) (initPool_inv 1000)
  have hlen : ((initPool 1000).loadChunk 0 1000).1.length = 1000 := by
    rw [h4]
    simp [initPool]
  have hcap : ((initPool 1000).loadChunk 0 1000).2.capacity = 1000 := by
    rw [h2]
    rfl
  have hused : ((initPool 1000).loadChunk 0 1000).2.usedCount = 1000 := by
    rw [h3, hlen]
    rfl
  refine ⟨hlen, hused, ?_⟩
  intro o2
  have hfull2 : ((initPool 1000).loadChunk 0 1000).2.usedCount =
      ((initPool 1000).loadChunk 0 1000).2.capacity := by
    rw [hused, hcap]
  obtain ⟨ha, hb⟩ := ((initPool 1000).loadChunk 0 1000).2.allocate_full o2 h1 hfull2
  exact ⟨ha, by rw [hb, hcap]⟩

/-- Witness for C6: a capacity-1 pool after one allocation is full, and the
next allocation fails with `CapacityExhausted`. -/
theorem allocate_capacity_exhausted_witness :
    ((initPool 1).applyOp (PoolOp.alloc 0)).usedCount =
      ((initPool 1).applyOp (PoolOp.alloc 0)).capacity ∧
    ((initPool 1).applyOp (PoolOp.alloc 0)).allocate 9 =
      .error .CapacityExhausted :=
  ⟨by decide,
   ((allocate_capacity_exhausted ((initPool 1).applyOp (PoolOp.alloc 0)) 9
      ((initPool 1).applyOp_inv (PoolOp.alloc 0) (initPool_inv 1)).1
      (by decide)).1).1⟩

/-- C7: with chunk size 16 and viewRadius 2, the desired set for an observer
at the origin is exactly the 5×5 block of chunk coordinates centered at
(0, 0): the 25 coordinates with both components in [-2, 2]. -/
theorem desiredSet_origin_scenario :
    (desiredSet 16 0 0 2).card = 25 ∧
    ∀ q : ChunkCoordinate, q ∈ desiredSet 16 0 0 2 ↔
      (-2 ≤ q.1 ∧ q.1 ≤ 2 ∧ -2 ≤ q.2 ∧ q.2 ≤ 2) := by
  constructor
  · rw [desiredSet, Finset.card_product]
    simp [chunkCoordinateFor, Int.card_Icc]
  · intro q
    rw [desiredSet, Finset.mem_product, Finset.mem_Icc, Finset.mem_Icc]
    simp only [chunkCoordinateFor, Int.zero_fdiv]
    omega

/-- C8 counterexample: the claimed per-frame order — StreamingScheduler tick
first, InstancePool updateFacing afterwards — is false on the code: in the
update list run by `animate` the global billboard system (the updateFacing
role) precedes the chunk manager (the tick role), so the tick's update index
is not smaller. -/
theorem animate_tick_not_before_updateFacing :
    ¬ ((animateEffects true).indexOf (FrameEffect.update SystemId.chunkManager) <
        (animateEffects true).indexOf
          (FrameEffect.update SystemId.globalBillboardSystem)) := by decide

/-- C8 (amended): on every initialized frame the driver updates each system
exactly once in a fixed order in which the billboard system's camera-facing
update precedes the chunk manager's streaming tick, which precedes the
player controller update that feeds the observer position into the chunk
manager, and the scene render follows all system updates. -/
theorem animate_update_order :
    (∀ s : SystemId, (animateEffects true).count (FrameEffect.update s) = 1) ∧
    (animateEffects true).indexOf
        (FrameEffect.update SystemId.globalBillboardSystem) <
      (animateEffects true).indexOf (FrameEffect.update SystemId.chunkManager) ∧
    (animateEffects true).indexOf (FrameEffect.update SystemId.chunkManager) <
      (animateEffects true).indexOf
        (FrameEffect.update SystemId.playerController) ∧
    (animateEffects true).indexOf
        (FrameEffect.update SystemId.playerController) <
      (animateEffects true).indexOf FrameEffect.render := by decide

/-- C9: camera pitch is clamped on every update: for every sequence of
mouse-move frames from the initial controller state, the resulting pitch
stays within [-maxPitch, maxPitch] = [-(π/2 - 0.1), π/2 - 0.1], the camera
x-rotation written by updateCamera equals the pitch, and hence also stays
within the bound. -/
theorem camera_pitch_clamped (ms : List MouseFrame) :
    |(runCamera initCamera ms).pitch| ≤ maxPitch ∧
    (runCamera initCamera ms).camRotX = (runCamera initCamera ms).pitch ∧
    |(runCamera initCamera ms).camRotX| ≤ maxPitch := by
  have h0 : |initCamera.pitch| ≤ maxPitch := by
    rw [show initCamera.pitch = 0 from rfl, abs_zero]
    exact le_of_lt maxPitch_pos
  have h1 := runCamera_bounded ms initCamera h0
  have h2 := runCamera_rot ms initCamera rfl
  exact ⟨h1, h2, by rw [h2]; exact h1⟩

/-- C10: a frame that runs while `isInitialized` is false produces no
effects at all, and in every program run from the uninitialized state, any
frame that emits a system update or a render fires in a state where
`isInitialized` is set — which is only reachable after all `numSystems`
inits have resolved. -/
theorem no_update_before_initialized (es : List AppEvent) :
    animateEffects false = [] ∧
    ∀ pr ∈ initialApp.trace es,
      ((∃ s : SystemId, FrameEffect.update s ∈ pr.2) ∨
        FrameEffect.render ∈ pr.2) →
      pr.1.isInitialized = true ∧ pr.1.initsCompleted = numSystems := by
  refine ⟨rfl, ?_⟩
  intro pr hpr hne
  refine AppState.trace_gated es initialApp (fun h => absurd h (by decide)) pr hpr ?_
  rcases hne with ⟨s, hs⟩ | hr
  · exact List.ne_nil_of_mem hs
  · exact List.ne_nil_of_mem hr

/-- Witness for C10: the run that resolves all 14 inits, sets the flag and
then renders one frame contains that frame in its trace, firing in the
fully initialized state. -/
theorem no_update_before_initialized_witness :
    (({ initsCompleted := 14, isInitialized := true }, animateEffects true) ∈
        initialApp.trace (List.replicate 14 AppEvent.initStep ++
          [AppEvent.finishInit, AppEvent.frame]) ∧
      FrameEffect.render ∈ animateEffects true) ∧
    ({ initsCompleted := 14, isInitialized := true } : AppState).isInitialized
      = true :=
  ⟨⟨by decide, by decide⟩,
   ((no_update_before_initialized (List.replicate 14 AppEvent.initStep ++
        [AppEvent.finishInit, AppEvent.frame])).2
      ({ initsCompleted := 14, isInitialized := true }, animateEffects true)
      (by decide) (Or.inr (by decide))).1⟩

end Pix3D